import Mathlib

/-!
# Verification of the Citations_App scraper (src/app.py)

Shallow embedding of the pure core of `app.py`: citation-year extraction and
normalization, the per-publication and per-author year-axis computations, the
journal classification, scholar-id extraction, and the cancellable job loops.
Python dicts are modelled as association lists in insertion order; machine
integers are `Int`; fallible coercions return `Option`.
-/

namespace ScholarApp

/-! ## Citation maps

`citations_by_year` is a Python dict from year to count, modelled as an
association list `List (Int × Int)` in insertion order (keys unique in any
value actually produced by `get_cites_per_year`). -/

/-- Lookup in an association list: `d.get(k)` on a Python dict (first match). -/
def alistGet (d : List (Int × Int)) (k : Int) : Option Int :=
  (d.find? (fun yc => yc.1 == k)).map Prod.snd

/-- Lookup with default: `d.get(k, v0)` on a Python dict. -/
def alistGetD (d : List (Int × Int)) (k : Int) (v0 : Int) : Int :=
  (alistGet d k).getD v0

/-- Minimum of a list of integers, `none` on the empty list.  Mirrors Python's
`sorted(l)[0]` access pattern (order of the list is irrelevant). -/
def listMin : List Int → Option Int
  | [] => none
  | a :: t =>
    match listMin t with
    | none => some a
    | some m => some (min a m)

/-- `app.py` lines 639-645: the paper start year.  The code sorts the years
whose count `c` satisfies `c and int(c) > 0` and takes the first (i.e. the
minimum), leaving `start_year = None` when no such year exists. -/
def start_year_of (cby : List (Int × Int)) : Option Int :=
  listMin ((cby.filter (fun yc => yc.2 != 0 && decide (0 < yc.2))).map Prod.fst)

/-- The start-year rule exactly as claim C1 words it: minimum positive-count
year when one exists, else the minimum key of the (nonempty) map, else unset.
This is the spec side of the comparison, not a translation of the code. -/
def claim_start_year (cby : List (Int × Int)) : Option Int :=
  match listMin ((cby.filter (fun yc => decide (0 < yc.2))).map Prod.fst) with
  | some y => some y
  | none => if cby = [] then none else listMin (cby.map Prod.fst)

/-- A list of integers with minimum `none` is empty. -/
theorem listMin_none (l : List Int) (h : listMin l = none) : l = [] := by
  cases l with
  | nil => rfl
  | cons a t =>
    exfalso
    rw [listMin] at h
    cases ht : listMin t with
    | none => simp [ht] at h
    | some n => simp [ht] at h

/-- The minimum of a list of integers is a member and a lower bound. -/
theorem listMin_mem_le (l : List Int) (m : Int) (h : listMin l = some m) :
    m ∈ l ∧ ∀ x ∈ l, m ≤ x := by
  induction l generalizing m with
  | nil => simp [listMin] at h
  | cons a t ih =>
    rw [listMin] at h
    cases ht : listMin t with
    | none =>
      have hte : t = [] := listMin_none t ht
      subst hte
      simp [ht] at h
      subst h
      simp
    | some n =>
      simp [ht] at h
      obtain ⟨hmem, hle⟩ := ih n ht
      subst h
      refine ⟨?_, ?_⟩
      · rcases le_total a n with han | hna
        · rw [inf_eq_left.mpr han]
          exact List.mem_cons_self a t
        · rw [inf_eq_right.mpr hna]
          exact List.mem_cons_of_mem a hmem
      · intro x hx
        rcases List.mem_cons.mp hx with rfl | hxt
        · exact inf_le_left
        · exact le_trans inf_le_right (hle x hxt)

/-- C1 (counterexample): a publication whose only citation entry is year 2020
with count 0 has citation data but no positive year; the code leaves the start
year unset, while the claim demands the minimum key 2020. -/
theorem c1_counterexample :
    start_year_of [((2020 : Int), (0 : Int))] ≠ claim_start_year [(2020, 0)] := by
  decide

/-- C1 (amended): the computed start year is the minimum year with a strictly
positive citation count when such a year exists, and is unset otherwise — even
when citation data exists but no year has a positive count (no fallback to the
minimum key). -/
theorem c1_start_year (cby : List (Int × Int)) :
    (start_year_of cby = none → ∀ yc ∈ cby, yc.2 ≤ 0)
    ∧ (∀ y, start_year_of cby = some y →
        (∃ c, (y, c) ∈ cby ∧ 0 < c) ∧ ∀ yc ∈ cby, 0 < yc.2 → y ≤ yc.1) := by
  constructor
  · intro h yc hmem
    by_contra hpos
    push_neg at hpos
    have hfil : yc ∈ cby.filter (fun yc => yc.2 != 0 && decide (0 < yc.2)) := by
      refine List.mem_filter.mpr ⟨hmem, ?_⟩
      simp only [Bool.and_eq_true, bne_iff_ne, ne_eq, decide_eq_true_eq]
      exact ⟨by omega, hpos⟩
    have hemp : (cby.filter (fun yc => yc.2 != 0 && decide (0 < yc.2))).map Prod.fst = [] :=
      listMin_none _ h
    have hin : yc.1 ∈ ((cby.filter (fun yc => yc.2 != 0 && decide (0 < yc.2))).map Prod.fst) :=
      List.mem_map_of_mem Prod.fst hfil
    rw [hemp] at hin
    simp at hin
  · intro y h
    obtain ⟨hmem, hle⟩ := listMin_mem_le _ y h
    constructor
    · obtain ⟨yc, hyc, hfst⟩ := List.mem_map.mp hmem
      refine ⟨yc.2, ?_, ?_⟩
      · have hyceq : yc = (y, yc.2) := by
          rw [← hfst]
        rw [← hyceq]
        exact (List.mem_filter.mp hyc).1
      · have hb := (List.mem_filter.mp hyc).2
        simp only [Bool.and_eq_true, bne_iff_ne, ne_eq, decide_eq_true_eq] at hb
        exact hb.2
    · intro yc hyc hpos
      apply hle
      refine List.mem_map.mpr ⟨yc, ?_, rfl⟩
      refine List.mem_filter.mpr ⟨hyc, ?_⟩
      simp only [Bool.and_eq_true, bne_iff_ne, ne_eq, decide_eq_true_eq]
      exact ⟨by omega, hpos⟩

/-- C1 witness: the amended theorem evaluated at the concrete citation map
`{2020: 3, 2019: 1}`, whose computed start year is 2019. -/
theorem c1_start_year_witness :
    (∃ c, ((2019 : Int), c) ∈ [((2020 : Int), (3 : Int)), (2019, 1)] ∧ 0 < c) ∧
    ∀ yc ∈ [((2020 : Int), (3 : Int)), (2019, 1)], 0 < yc.2 → (2019 : Int) ≤ yc.1 :=
  (c1_start_year [((2020 : Int), (3 : Int)), (2019, 1)]).2 2019 (by decide)

/-! ## Per-publication data and the year axis (YearAlignmentEngine) -/

/-- The fields of a `pub_data` dict (app.py lines 647-657) that the year-axis
computations read: `start_year`, `cites_by_year` and `pub_year` (the latter as
the result of the `int(p["pub_year"])` coercion, lines 719-724). -/
structure PubData where
  start_year : Option Int
  cites_by_year : List (Int × Int)
  pub_year : Option Int
deriving DecidableEq, Repr

/-- A `pub_data` entry as the pipeline builds it: `start_year` computed from
the citation map by lines 639-645. -/
def mkPubData (cby : List (Int × Int)) (py : Option Int) : PubData :=
  ⟨start_year_of cby, cby, py⟩

/-- Maximum of a list of integers, `none` on the empty list. -/
def listMax : List Int → Option Int
  | [] => none
  | a :: t =>
    match listMax t with
    | none => some a
    | some m => some (max a m)

/-- `all_citation_years` (app.py line 636): every year appearing in any
publication's citation map. -/
def allCitationYears (pubs : List PubData) : List Int :=
  (pubs.map (fun d => d.cites_by_year.map Prod.fst)).flatten

/-- `max_cite_year` after app.py lines 714-730: the maximum citation year; if
no citation data exists, the maximum publication year; else the current year. -/
def maxCiteYearOf (pubs : List PubData) (currentYear : Int) : Int :=
  match listMax (allCitationYears pubs) with
  | some m => m
  | none =>
    match listMax (pubs.filterMap PubData.pub_year) with
    | some m => m
    | none => currentYear

/-- `min_cite_year` after app.py lines 714-730 (same fallback chain). -/
def minCiteYearOf (pubs : List PubData) (currentYear : Int) : Int :=
  match listMin (allCitationYears pubs) with
  | some m => m
  | none =>
    match listMin (pubs.filterMap PubData.pub_year) with
    | some m => m
    | none => currentYear

/-- `years_since_first_citation` (app.py line 755) under the loop's guard
`if data["start_year"]:` (line 754), which by Python truthiness skips both a
missing start year and a start year equal to 0. -/
def spanOf (mcy : Int) (d : PubData) : Option Int :=
  match d.start_year with
  | some sy => if sy ≠ 0 then some (max 0 (mcy - sy + 1)) else none
  | none => none

/-- `num_years` (app.py lines 752-757): `max_consecutive_years` is the running
maximum of the spans of the publications passing the truthiness guard, and
`num_years = max(max_consecutive_years + 2, 5)`. -/
def num_years (pubs : List PubData) (mcy : Int) : Int :=
  max
    (pubs.foldl
      (fun acc d =>
        match spanOf mcy d with
        | some v => max acc v
        | none => acc) 0 + 2) 5

/-- The span rule exactly as claim C4 words it: every publication whose
start year is present contributes `max 0 (mcy - sy + 1)`, with no exclusion of
a start year equal to 0.  Spec side of the comparison. -/
def claim_span_of (mcy : Int) (d : PubData) : Option Int :=
  match d.start_year with
  | some sy => some (max 0 (mcy - sy + 1))
  | none => none

/-- `numYearColumns` as claim C4 words it. -/
def claim_num_years (pubs : List PubData) (mcy : Int) : Int :=
  max
    (pubs.foldl
      (fun acc d =>
        match claim_span_of mcy d with
        | some v => max acc v
        | none => acc) 0 + 2) 5

/-- Behaviour of a running-maximum fold over the defined values of `f`. -/
theorem foldl_optMax_spec (f : PubData → Option Int) (l : List PubData) (acc : Int) :
    acc ≤ l.foldl (fun a d => match f d with | some v => max a v | none => a) acc
    ∧ (∀ d ∈ l, ∀ v, f d = some v →
        v ≤ l.foldl (fun a d => match f d with | some v => max a v | none => a) acc)
    ∧ (l.foldl (fun a d => match f d with | some v => max a v | none => a) acc = acc
        ∨ ∃ d ∈ l, ∃ v, f d = some v ∧
            l.foldl (fun a d => match f d with | some v => max a v | none => a) acc = v) := by
  induction l generalizing acc with
  | nil => simp
  | cons d t ih =>
    cases hf : f d with
    | none =>
      obtain ⟨h1, h2, h3⟩ := ih acc
      refine ⟨?_, ?_, ?_⟩
      · simpa [List.foldl_cons, hf] using h1
      · intro e he v hv
        rcases List.mem_cons.mp he with rfl | het
        · rw [hf] at hv
          exact Option.noConfusion hv
        · simpa [List.foldl_cons, hf] using h2 e het v hv
      · rcases h3 with heq | ⟨e, het, v, hv, hveq⟩
        · left
          simpa [List.foldl_cons, hf] using heq
        · right
          exact ⟨e, List.mem_cons_of_mem d het, v, hv, by simpa [List.foldl_cons, hf] using hveq⟩
    | some w =>
      obtain ⟨h1, h2, h3⟩ := ih (max acc w)
      refine ⟨?_, ?_, ?_⟩
      · have : acc ≤ max acc w := le_max_left acc w
        calc acc ≤ max acc w := this
          _ ≤ _ := by simpa [List.foldl_cons, hf] using h1
      · intro e he v hv
        rcases List.mem_cons.mp he with rfl | het
        · rw [hf] at hv
          injection hv with hvw
          subst hvw
          calc w ≤ max acc w := le_max_right acc w
            _ ≤ _ := by simpa [List.foldl_cons, hf] using h1
        · simpa [List.foldl_cons, hf] using h2 e het v hv
      · rcases h3 with heq | ⟨e, het, v, hv, hveq⟩
        · rcases max_choice acc w with hmc | hmc
          · left
            have := heq.trans hmc
            simpa [List.foldl_cons, hf] using this
          · right
            refine ⟨d, List.mem_cons_self d t, w, hf, ?_⟩
            have := heq.trans hmc
            simpa [List.foldl_cons, hf] using this
        · right
          exact ⟨e, List.mem_cons_of_mem d het, v, hv, by simpa [List.foldl_cons, hf] using hveq⟩

/-- C4 (counterexample): two publications, one first cited in year 0 (count 1
at year 0) and one first cited in year 3; `maxCiteYear = 3`.  The claim's
formula gives `max((3-0+1)+2, 5) = 6` columns, but the code's truthiness guard
drops the start-year-0 publication and produces 5. -/
theorem c4_counterexample :
    num_years [mkPubData [((0 : Int), (1 : Int))] none, mkPubData [((3 : Int), (1 : Int))] none]
        (maxCiteYearOf
          [mkPubData [((0 : Int), (1 : Int))] none, mkPubData [((3 : Int), (1 : Int))] none]
          2025)
      ≠ claim_num_years
          [mkPubData [((0 : Int), (1 : Int))] none, mkPubData [((3 : Int), (1 : Int))] none]
          (maxCiteYearOf
            [mkPubData [((0 : Int), (1 : Int))] none, mkPubData [((3 : Int), (1 : Int))] none]
            2025) := by
  decide

/-- C4 (amended): `numYearColumns = max(maxSpan + 2, 5)` where the span
maximum ranges over the publications with a present **and nonzero** start year
(the code tests the start year for Python truthiness, so a start year of 0 is
excluded like a missing one).  In particular `numYearColumns >= 5` always,
every such span satisfies `span + 2 <= numYearColumns`, and the count is
either 5 or `span + 2` for one of those publications. -/
theorem c4_num_years (pubs : List PubData) (mcy : Int) :
    5 ≤ num_years pubs mcy
    ∧ (∀ d ∈ pubs, ∀ sy, d.start_year = some sy → sy ≠ 0 →
        max 0 (mcy - sy + 1) + 2 ≤ num_years pubs mcy)
    ∧ (num_years pubs mcy = 5 ∨
        ∃ d ∈ pubs, ∃ sy, d.start_year = some sy ∧ sy ≠ 0 ∧
          num_years pubs mcy = max 0 (mcy - sy + 1) + 2) := by
  obtain ⟨h1, h2, h3⟩ := foldl_optMax_spec (spanOf mcy) pubs 0
  unfold num_years
  refine ⟨le_max_right _ 5, ?_, ?_⟩
  · intro d hd sy hsy hsy0
    have hspan : spanOf mcy d = some (max 0 (mcy - sy + 1)) := by
      simp [spanOf, hsy, hsy0]
    have hv := h2 d hd _ hspan
    exact le_trans (add_le_add_right hv 2) (le_max_left _ 5)
  · rcases h3 with heq | ⟨d, hd, v, hv, hveq⟩
    · left
      rw [heq]
      decide
    · rcases max_choice
          (pubs.foldl
            (fun acc d =>
              match spanOf mcy d with
              | some v => max acc v
              | none => acc) 0 + 2) 5 with hmc | hmc
      · right
        obtain ⟨sy, hsy, hsy0, hvval⟩ : ∃ sy, d.start_year = some sy ∧ sy ≠ 0 ∧
            v = max 0 (mcy - sy + 1) := by
          unfold spanOf at hv
          cases hds : d.start_year with
          | none => rw [hds] at hv; exact Option.noConfusion hv
          | some sy =>
            rw [hds] at hv
            by_cases h0 : sy = 0
            · simp [h0] at hv
            · refine ⟨sy, rfl, h0, ?_⟩
              simp [h0] at hv
              omega
        exact ⟨d, hd, sy, hsy, hsy0, by rw [hmc, hveq, hvval]⟩
      · left
        exact hmc

/-- C4 witness: a single publication first cited in 2020 with `maxCiteYear`
2021 has span 2, and indeed `2 + 2 = 4 <= num_years = 5`. -/
theorem c4_num_years_witness :
    max 0 ((2021 : Int) - 2020 + 1) + 2 ≤
      num_years [mkPubData [((2020 : Int), (4 : Int))] none] 2021 :=
  (c4_num_years [mkPubData [((2020 : Int), (4 : Int))] none] 2021).2.1
    (mkPubData [((2020 : Int), (4 : Int))] none) (by decide) 2020 (by decide) (by decide)

/-- The per-publication year cells of one export row (app.py lines 770-778):
under the truthiness guard `if start_year:`, cell `i` (0-indexed here,
1-indexed `Year {i+1}` in the sheet) is `citations_by_year.get(start_year + i)`
— `some count` when the year is observed, `none` (blank) otherwise; with a
missing (or zero) start year every cell is blank. -/
def pubYearCells (d : PubData) (numYears : Nat) : List (Option Int) :=
  match d.start_year with
  | some sy =>
    if sy ≠ 0 then
      (List.range numYears).map (fun (i : Nat) => alistGet d.cites_by_year (sy + (i : Int)))
    else List.replicate numYears none
  | none => List.replicate numYears none

/-- The row rule exactly as claim C5 words it: any publication with a present
start year gets the shifted lookups, only a publication without a start year
gets the all-blank row.  Spec side of the comparison. -/
def claim_pubYearCells (d : PubData) (numYears : Nat) : List (Option Int) :=
  match d.start_year with
  | some sy =>
    (List.range numYears).map (fun (i : Nat) => alistGet d.cites_by_year (sy + (i : Int)))
  | none => List.replicate numYears none

/-- C5 (counterexample): a publication whose only citations are 3 at year 0
has start year 0; the claim's rule puts 3 in column 1, but the code's
truthiness guard `if start_year:` leaves the whole row blank. -/
theorem c5_counterexample :
    pubYearCells (mkPubData [((0 : Int), (3 : Int))] none) 5
      ≠ claim_pubYearCells (mkPubData [((0 : Int), (3 : Int))] none) 5 := by
  decide

/-- C5 (amended): for a publication with a present **nonzero** start year `Y`,
column `i` (1-indexed) holds `citationsByYear.get(Y + i - 1)` — the observed
count, or blank; a publication with no start year has every year column
blank, and so does a publication whose start year is 0 (the Python truthiness
of line 772).  The claim's round-trip example holds: start year 2020 with
`{2020: 3, 2021: 0, 2022: 5}` and 5 columns gives `3, 0, 5, blank, blank`. -/
theorem c5_year_cells (cby : List (Int × Int)) (py : Option Int) (n : Nat) :
    (∀ sy, start_year_of cby = some sy → sy ≠ 0 → ∀ i : Nat, i < n →
      (pubYearCells (mkPubData cby py) n)[i]? = some (alistGet cby (sy + (i : Int))))
    ∧ (start_year_of cby = none →
        pubYearCells (mkPubData cby py) n = List.replicate n none)
    ∧ (start_year_of cby = some 0 →
        pubYearCells (mkPubData cby py) n = List.replicate n none)
    ∧ pubYearCells
        (mkPubData [((2020 : Int), (3 : Int)), (2021, 0), (2022, 5)] none) 5
        = [some 3, some 0, some 5, none, none] := by
  refine ⟨?_, ?_, ?_, by decide⟩
  · intro sy hsy hsy0 i hi
    unfold pubYearCells mkPubData
    simp only [hsy]
    rw [if_pos hsy0, List.getElem?_map, List.getElem?_range hi]
    rfl
  · intro hsy
    unfold pubYearCells mkPubData
    simp only [hsy]
  · intro hsy
    unfold pubYearCells mkPubData
    simp only [hsy]
    rw [if_neg (fun h => h rfl)]

/-- C5 witness: the amended theorem at start year 2020 with citations
`{2020: 3}`: column 1 of a 5-column row holds the observed count. -/
theorem c5_year_cells_witness :
    (pubYearCells (mkPubData [((2020 : Int), (3 : Int))] none) 5)[0]?
      = some (alistGet [((2020 : Int), (3 : Int))] (2020 + ((0 : Nat) : Int))) :=
  (c5_year_cells [((2020 : Int), (3 : Int))] none 5).1 2020 (by decide) (by decide) 0
    (by decide)

/-! ## Author-level summary axis and the multi-author export -/

/-- One author's summary data as `scrape_multiple_authors` stores it
(app.py lines 957-985): summary start/end year, the span
`summary_years_span = end - start + 1`, and the aggregated yearly totals. -/
structure AuthorSummary where
  sumStart : Int
  sumEnd : Int
  span : Int
  agg_years : List (Int × Int)
deriving DecidableEq, Repr

/-- app.py lines 957-962: `summary_start_year = max(min_cite_year, 1990)`
(for `min_cite_year = 0` the truthy-guard branch also yields 1990, so the
guard is equivalent to the plain max), `summary_end_year` clamped up to the
start, and the span. -/
def mkAuthorSummary (minC maxC : Int) (agg : List (Int × Int)) : AuthorSummary :=
  let start := max minC 1990
  let stop := if maxC < start then start else maxC
  ⟨start, stop, stop - start + 1, agg⟩

/-- `max_individual_span` (app.py lines 875, 964-966): the running maximum of
the per-author spans, and the number of `Year i` columns of the multi-author
sheet (line 1008). -/
def maxIndividualSpan (ss : List AuthorSummary) : Int :=
  ss.foldl (fun m s => if s.span > m then s.span else m) 0

/-- The `Year 1 .. Year N` cells of one author-summary row (app.py lines
1029-1035): within the author's own span the aggregate at
`summary_start_year + i` (defaulting to 0), beyond it a blank. -/
def summaryYearCells (maxSpan : Int) (s : AuthorSummary) : List (Option Int) :=
  (List.range maxSpan.toNat).map (fun (i : Nat) =>
    if (i : Int) < s.span then some (alistGetD s.agg_years (s.sumStart + (i : Int)) 0)
    else none)

/-- A summary's span field is `sumEnd - sumStart + 1` and is at least 1. -/
theorem mkAuthorSummary_span (minC maxC : Int) (agg : List (Int × Int)) :
    (mkAuthorSummary minC maxC agg).span
        = (mkAuthorSummary minC maxC agg).sumEnd - (mkAuthorSummary minC maxC agg).sumStart + 1
    ∧ 1 ≤ (mkAuthorSummary minC maxC agg).span := by
  unfold mkAuthorSummary
  dsimp only
  constructor
  · rfl
  · split <;> omega

/-- The running-maximum fold over spans dominates every span and is either its
seed or one of the spans. -/
theorem foldl_runMax_spec (l : List AuthorSummary) (m : Int) :
    m ≤ l.foldl (fun m s => if s.span > m then s.span else m) m
    ∧ (∀ s ∈ l, s.span ≤ l.foldl (fun m s => if s.span > m then s.span else m) m)
    ∧ (l.foldl (fun m s => if s.span > m then s.span else m) m = m
        ∨ ∃ s ∈ l, l.foldl (fun m s => if s.span > m then s.span else m) m = s.span) := by
  induction l generalizing m with
  | nil => simp
  | cons a t ih =>
    have hstep : (if a.span > m then a.span else m) = m ∨
        (if a.span > m then a.span else m) = a.span := by
      split
      · right; rfl
      · left; rfl
    obtain ⟨h1, h2, h3⟩ := ih (if a.span > m then a.span else m)
    have hm : m ≤ (if a.span > m then a.span else m) := by split <;> omega
    have ha : a.span ≤ (if a.span > m then a.span else m) := by split <;> omega
    refine ⟨le_trans hm (by simpa [List.foldl_cons] using h1), ?_, ?_⟩
    · intro s hs
      rcases List.mem_cons.mp hs with rfl | hst
      · exact le_trans ha (by simpa [List.foldl_cons] using h1)
      · simpa [List.foldl_cons] using h2 s hst
    · rcases h3 with heq | ⟨s, hst, hseq⟩
      · rcases hstep with hm0 | ha0
        · left
          simpa [List.foldl_cons, hm0] using heq
        · right
          exact ⟨a, List.mem_cons_self a t, by simpa [List.foldl_cons, ha0] using heq⟩
      · right
        exact ⟨s, List.mem_cons_of_mem a hst, by simpa [List.foldl_cons] using hseq⟩

/-- C6: in a multi-author export the number of `Year i` columns equals the
maximum of `summaryEndYear - summaryStartYear + 1` over the processed
authors, and in each author's row the cells within the author's own span hold
the aggregate at `summaryStartYear + i - 1` (1-indexed, defaulting to 0)
while the cells beyond it are blank, not zero. -/
theorem c6_summary_columns (authors : List (Int × Int × List (Int × Int)))
    (h : authors ≠ []) :
    (∀ s ∈ authors.map (fun a => mkAuthorSummary a.1 a.2.1 a.2.2),
      s.sumEnd - s.sumStart + 1
        ≤ maxIndividualSpan (authors.map (fun a => mkAuthorSummary a.1 a.2.1 a.2.2)))
    ∧ (∃ s ∈ authors.map (fun a => mkAuthorSummary a.1 a.2.1 a.2.2),
        maxIndividualSpan (authors.map (fun a => mkAuthorSummary a.1 a.2.1 a.2.2))
          = s.sumEnd - s.sumStart + 1)
    ∧ (∀ s ∈ authors.map (fun a => mkAuthorSummary a.1 a.2.1 a.2.2),
        ∀ i : Nat,
          (i : Int) < maxIndividualSpan (authors.map (fun a => mkAuthorSummary a.1 a.2.1 a.2.2)) →
          (((i : Int) < s.sumEnd - s.sumStart + 1 →
            (summaryYearCells
                (maxIndividualSpan (authors.map (fun a => mkAuthorSummary a.1 a.2.1 a.2.2)))
                s)[i]?
              = some (some (alistGetD s.agg_years (s.sumStart + (i : Int)) 0)))
          ∧ ((s.sumEnd - s.sumStart + 1 ≤ (i : Int)) →
            (summaryYearCells
                (maxIndividualSpan (authors.map (fun a => mkAuthorSummary a.1 a.2.1 a.2.2)))
                s)[i]?
              = some none))) := by
  have hspan : ∀ s ∈ authors.map (fun a => mkAuthorSummary a.1 a.2.1 a.2.2),
      s.span = s.sumEnd - s.sumStart + 1 ∧ 1 ≤ s.span := by
    intro s hs
    obtain ⟨a, _, rfl⟩ := List.mem_map.mp hs
    exact mkAuthorSummary_span a.1 a.2.1 a.2.2
  obtain ⟨h1, h2, h3⟩ :=
    foldl_runMax_spec (authors.map (fun a => mkAuthorSummary a.1 a.2.1 a.2.2)) 0
  refine ⟨?_, ?_, ?_⟩
  · intro s hs
    have := h2 s hs
    rw [← (hspan s hs).1]
    exact this
  · rcases h3 with heq | ⟨s, hs, hseq⟩
    · exfalso
      obtain ⟨a, ha⟩ := List.exists_mem_of_ne_nil authors h
      have hmem : mkAuthorSummary a.1 a.2.1 a.2.2
          ∈ authors.map (fun a => mkAuthorSummary a.1 a.2.1 a.2.2) :=
        List.mem_map_of_mem _ ha
      have := h2 _ hmem
      have h1span := (hspan _ hmem).2
      unfold maxIndividualSpan at heq
      omega
    · refine ⟨s, hs, ?_⟩
      unfold maxIndividualSpan
      rw [hseq, (hspan s hs).1]
  · intro s hs i hi
    have hiN : i < (maxIndividualSpan
        (authors.map (fun a => mkAuthorSummary a.1 a.2.1 a.2.2))).toNat := by
      omega
    constructor
    · intro hlt
      unfold summaryYearCells
      rw [List.getElem?_map, List.getElem?_range hiN]
      simp only [Option.map_some']
      rw [if_pos (by rw [(hspan s hs).1]; exact hlt)]
    · intro hge
      unfold summaryYearCells
      rw [List.getElem?_map, List.getElem?_range hiN]
      simp only [Option.map_some']
      rw [if_neg (by rw [(hspan s hs).1]; omega)]

/-- C6 witness: one author with citation span 1995-1997 (start clamped to
1995, span 3): column 2 of their row holds the aggregate at 1996. -/
theorem c6_summary_columns_witness :
    (summaryYearCells
        (maxIndividualSpan
          ([((1995 : Int), (1997 : Int), [((1996 : Int), (4 : Int))])].map
            (fun a => mkAuthorSummary a.1 a.2.1 a.2.2)))
        (mkAuthorSummary 1995 1997 [((1996 : Int), (4 : Int))]))[1]?
      = some (some (alistGetD [((1996 : Int), (4 : Int))] ((1995 : Int) + ((1 : Nat) : Int)) 0)) := by
  have h := ((c6_summary_columns [((1995 : Int), (1997 : Int), [((1996 : Int), (4 : Int))])]
      (by simp)).2.2
    (mkAuthorSummary 1995 1997 [((1996 : Int), (4 : Int))]) (by simp) 1 (by decide)).1 (by decide)
  simpa using h

/-! ## Raw records and citation extraction (CitationNormalizer) -/

/-- A loosely-typed Python value, as far as `get_cites_per_year` inspects one:
integers, strings and dicts (association lists in insertion order, arbitrary
keys).  Other runtime types would, like strings, fail both the `isinstance`
test and the `int(...)` coercion. -/
inductive PyVal where
  | vint (n : Int) : PyVal
  | vstr (s : String) : PyVal
  | vdict (entries : List (PyVal × PyVal)) : PyVal

/-- Python `==` between a dict key and a string literal. -/
def PyVal.isStrKey : PyVal → String → Bool
  | .vstr s, k => s == k
  | _, _ => false

/-- Python dict lookup with a string key (`key in d` / `d[key]`). -/
def pyLookupStr (d : List (PyVal × PyVal)) (k : String) : Option PyVal :=
  (d.find? (fun kv => kv.1.isStrKey k)).map Prod.snd

/-- Value of a nonempty all-digit character list. -/
def digitsVal (ds : List Char) : Option Nat :=
  if ds.isEmpty then none
  else if ds.all Char.isDigit then
    some (ds.foldl (fun a c => a * 10 + (c.toNat - 48)) 0)
  else none

/-- Strip leading and trailing Python whitespace. -/
def pyStripWs (l : List Char) : List Char :=
  ((l.dropWhile Char.isWhitespace).reverse.dropWhile Char.isWhitespace).reverse

/-- Python `int(...)` applied to a string: surrounding whitespace, an optional
sign, then decimal digits; `none` models the `ValueError` the code catches. -/
def pyIntOfChars (l : List Char) : Option Int :=
  match pyStripWs l with
  | '+' :: ds => (digitsVal ds).map (fun n => (n : Int))
  | '-' :: ds => (digitsVal ds).map (fun n => -(n : Int))
  | ds => (digitsVal ds).map (fun n => (n : Int))

/-- Python `int(...)` applied to a loosely-typed value; `none` models the
`(ValueError, TypeError)` pair the code catches. -/
def pyToInt : PyVal → Option Int
  | .vint n => some n
  | .vstr s => pyIntOfChars s.data
  | .vdict _ => none

/-- Python dict assignment `d[k] = v`: update in place, else append. -/
def dictInsertInt (d : List (Int × Int)) (k v : Int) : List (Int × Int) :=
  match d with
  | [] => [(k, v)]
  | (k0, v0) :: t => if k0 = k then (k0, v) :: t else (k0, v0) :: dictInsertInt t k v

/-- app.py lines 526-532: build `result` from the entries of a raw
`cites_per_year` dict, coercing year and count with `int(...)` and silently
dropping entries where either coercion fails. -/
def coerceCites (m : List (PyVal × PyVal)) : List (Int × Int) :=
  m.foldl
    (fun acc yc =>
      match pyToInt yc.1, pyToInt yc.2 with
      | some y, some c => dictInsertInt acc y c
      | _, _ => acc) []

/-- `get_cites_per_year` (app.py lines 521-533): probes the key spellings
`cites_per_year` then `citesPerYear` **at the top level of the record only**,
uses the first one bound to a dict, and returns an empty mapping otherwise. -/
def get_cites_per_year (pub : PyVal) : List (Int × Int) :=
  match pub with
  | .vdict d =>
    match pyLookupStr d "cites_per_year" with
    | some (.vdict m) => coerceCites m
    | _ =>
      match pyLookupStr d "citesPerYear" with
      | some (.vdict m) => coerceCites m
      | _ => []
  | _ => []

/-- The extraction rule exactly as claim C7 words it: the two spellings are
probed at the top level **or at the nested bibliographic sub-object** `bib`.
Spec side of the comparison. -/
def claim_get_cites (pub : PyVal) : List (Int × Int) :=
  match pub with
  | .vdict d =>
    match pyLookupStr d "cites_per_year" with
    | some (.vdict m) => coerceCites m
    | _ =>
      match pyLookupStr d "citesPerYear" with
      | some (.vdict m) => coerceCites m
      | _ =>
        match pyLookupStr d "bib" with
        | some (.vdict b) =>
          match pyLookupStr b "cites_per_year" with
          | some (.vdict m) => coerceCites m
          | _ =>
            match pyLookupStr b "citesPerYear" with
            | some (.vdict m) => coerceCites m
            | _ => []
        | _ => []
  | _ => []

/-- C7 (counterexample): a record whose per-year counts sit only under the
nested `bib` sub-object.  The claim's rule finds `{2020: 5}` there; the code
returns the empty mapping because it never probes `bib`. -/
theorem c7_counterexample :
    get_cites_per_year
        (.vdict [(.vstr "bib",
          .vdict [(.vstr "cites_per_year", .vdict [(.vint 2020, .vint 5)])])])
      ≠ claim_get_cites
          (.vdict [(.vstr "bib",
            .vdict [(.vstr "cites_per_year", .vdict [(.vint 2020, .vint 5)])])]) := by
  decide

/-- Every entry of the coerced mapping stems from a raw entry whose year and
count both coerce to those integers. -/
theorem coerceCites_sound (m : List (PyVal × PyVal)) (acc : List (Int × Int)) (yc : Int × Int)
    (h : yc ∈ m.foldl
      (fun acc yc =>
        match pyToInt yc.1, pyToInt yc.2 with
        | some y, some c => dictInsertInt acc y c
        | _, _ => acc) acc) :
    yc ∈ acc ∨ ∃ kv ∈ m, pyToInt kv.1 = some yc.1 ∧ pyToInt kv.2 = some yc.2 := by
  induction m generalizing acc with
  | nil => exact Or.inl (by simpa using h)
  | cons a t ih =>
    have hmem_insert : ∀ (d : List (Int × Int)) (k v : Int),
        yc ∈ dictInsertInt d k v → yc ∈ d ∨ (yc.1 = k ∧ yc.2 = v) := by
      intro d k v hm
      induction d with
      | nil =>
        simp [dictInsertInt] at hm
        exact Or.inr (by simp [hm])
      | cons b s ihd =>
        rw [dictInsertInt] at hm
        by_cases hk : b.1 = k
        · rw [if_pos hk] at hm
          rcases List.mem_cons.mp hm with rfl | hms
          · exact Or.inr ⟨hk.symm ▸ rfl, rfl⟩
          · exact Or.inl (List.mem_cons_of_mem _ hms)
        · rw [if_neg hk] at hm
          rcases List.mem_cons.mp hm with rfl | hms
          · exact Or.inl (List.mem_cons_self _ _)
          · rcases ihd hms with hd | hkv
            · exact Or.inl (List.mem_cons_of_mem _ hd)
            · exact Or.inr hkv
    rw [List.foldl_cons] at h
    cases hy : pyToInt a.1 with
    | none =>
      have h' := h
      rw [hy] at h'
      rcases ih _ h' with hacc | ⟨kv, hkv, hp⟩
      · exact Or.inl hacc
      · exact Or.inr ⟨kv, List.mem_cons_of_mem a hkv, hp⟩
    | some y =>
      cases hc : pyToInt a.2 with
      | none =>
        have h' := h
        rw [hy, hc] at h'
        rcases ih _ h' with hacc | ⟨kv, hkv, hp⟩
        · exact Or.inl hacc
        · exact Or.inr ⟨kv, List.mem_cons_of_mem a hkv, hp⟩
      | some c =>
        have h' := h
        rw [hy, hc] at h'
        rcases ih _ h' with hacc | ⟨kv, hkv, hp⟩
        · rcases hmem_insert _ _ _ hacc with hd | ⟨h1, h2⟩
          · exact Or.inl hd
          · exact Or.inr ⟨a, List.mem_cons_self a t, by rw [h1]; exact hy,
              by rw [h2]; exact hc⟩
        · exact Or.inr ⟨kv, List.mem_cons_of_mem a hkv, hp⟩

/-- C7 (amended): the extraction probes the two spellings at the **top level
only**, uses the first spelling bound to a dict (never merging locations),
returns an empty mapping when neither top-level spelling is dict-bound (even
when the nested `bib` sub-object carries citation data), returns empty on a
non-dict record, and every produced entry comes from a raw entry whose year
and count both coerce to integers. -/
theorem c7_get_cites (pub : PyVal) :
    ((∀ d, pub ≠ .vdict d) → get_cites_per_year pub = [])
    ∧ (∀ d m, pub = .vdict d → pyLookupStr d "cites_per_year" = some (.vdict m) →
        get_cites_per_year pub = coerceCites m)
    ∧ (∀ d m, pub = .vdict d →
        (∀ m0, pyLookupStr d "cites_per_year" ≠ some (.vdict m0)) →
        pyLookupStr d "citesPerYear" = some (.vdict m) →
        get_cites_per_year pub = coerceCites m)
    ∧ (∀ d, pub = .vdict d →
        (∀ m0, pyLookupStr d "cites_per_year" ≠ some (.vdict m0)) →
        (∀ m0, pyLookupStr d "citesPerYear" ≠ some (.vdict m0)) →
        get_cites_per_year pub = [])
    ∧ (∀ m yc, yc ∈ coerceCites m →
        ∃ kv ∈ m, pyToInt kv.1 = some yc.1 ∧ pyToInt kv.2 = some yc.2) := by
  refine ⟨?_, ?_, ?_, ?_, ?_⟩
  · intro hnd
    cases pub with
    | vint n => rfl
    | vstr s => rfl
    | vdict d => exact absurd rfl (hnd d)
  · intro d m hp hl
    subst hp
    simp [get_cites_per_year, hl]
  · intro d m hp hno hl
    subst hp
    cases h1 : pyLookupStr d "cites_per_year" with
    | none => simp [get_cites_per_year, h1, hl]
    | some v =>
      cases v with
      | vdict m0 => exact absurd h1 (hno m0)
      | vint n => simp [get_cites_per_year, h1, hl]
      | vstr s0 => simp [get_cites_per_year, h1, hl]
  · intro d hp hno1 hno2
    subst hp
    cases h1 : pyLookupStr d "cites_per_year" with
    | none =>
      cases h2 : pyLookupStr d "citesPerYear" with
      | none => simp [get_cites_per_year, h1, h2]
      | some v =>
        cases v with
        | vdict m0 => exact absurd h2 (hno2 m0)
        | vint n => simp [get_cites_per_year, h1, h2]
        | vstr s0 => simp [get_cites_per_year, h1, h2]
    | some v =>
      cases v with
      | vdict m0 => exact absurd h1 (hno1 m0)
      | vint n =>
        cases h2 : pyLookupStr d "citesPerYear" with
        | none => simp [get_cites_per_year, h1, h2]
        | some w =>
          cases w with
          | vdict m0 => exact absurd h2 (hno2 m0)
          | vint n2 => simp [get_cites_per_year, h1, h2]
          | vstr s2 => simp [get_cites_per_year, h1, h2]
      | vstr s0 =>
        cases h2 : pyLookupStr d "citesPerYear" with
        | none => simp [get_cites_per_year, h1, h2]
        | some w =>
          cases w with
          | vdict m0 => exact absurd h2 (hno2 m0)
          | vint n2 => simp [get_cites_per_year, h1, h2]
          | vstr s2 => simp [get_cites_per_year, h1, h2]
  · intro m yc h
    have h' : yc ∈ m.foldl
        (fun acc yc =>
          match pyToInt yc.1, pyToInt yc.2 with
          | some y, some c => dictInsertInt acc y c
          | _, _ => acc) [] := h
    rcases coerceCites_sound m [] yc h' with habs | hok
    · simp at habs
    · exact hok

/-- C7 witness: a record carrying `cites_per_year = {2020: 5}` at the top
level extracts exactly the coercion of that dict. -/
theorem c7_get_cites_witness :
    get_cites_per_year (.vdict [(.vstr "cites_per_year", .vdict [(.vint 2020, .vint 5)])])
      = coerceCites [(.vint 2020, .vint 5)] :=
  (c7_get_cites
      (.vdict [(.vstr "cites_per_year", .vdict [(.vint 2020, .vint 5)])])).2.1
    [(.vstr "cites_per_year", .vdict [(.vint 2020, .vint 5)])]
    [(.vint 2020, .vint 5)] rfl rfl

/-! ## Venue classification (normalize_journal_name, check_utd_journal) -/

/-- Character-wise lowercase (Python `str.lower` on these ASCII strings). -/
def lowerStr (s : String) : String := ⟨s.data.map Char.toLower⟩

/-- Split at the first occurrence of `sep`: the parts before and after it,
`none` when `sep` does not occur.  Models Python `sep in s` combined with
`s.split(sep, 1)`. -/
def splitFirst (sep : List Char) : List Char → Option (List Char × List Char)
  | [] => if sep = [] then some ([], []) else none
  | c :: t =>
    if sep.isPrefixOf (c :: t) then some ([], (c :: t).drop sep.length)
    else (splitFirst sep t).map (fun p => (c :: p.1, p.2))

/-- Python substring test `needle in hay`. -/
def strContains (hay needle : String) : Bool :=
  (splitFirst needle.data hay.data).isSome

/-- Strip one given character from both ends (Python `strip(',')`). -/
def stripCharEnds (c : Char) (l : List Char) : List Char :=
  ((l.dropWhile (· = c)).reverse.dropWhile (· = c)).reverse

/-- The UTD-24 journal allow-list (app.py lines 39-64), already lowercase. -/
def UTD_24_JOURNALS : List String := [
  "the accounting review",
  "journal of accounting and economics",
  "journal of accounting research",
  "journal of finance",
  "journal of financial economics",
  "the review of financial studies",
  "information systems research",
  "journal on computing",
  "mis quarterly",
  "journal of consumer research",
  "journal of marketing",
  "journal of marketing research",
  "marketing science",
  "management science",
  "operations research",
  "journal of operations management",
  "manufacturing and service operations management",
  "production and operations management",
  "academy of management journal",
  "academy of management review",
  "administrative science quarterly",
  "organization science",
  "journal of international business studies",
  "strategic management journal"]

/-- `normalize_journal_name` (app.py lines 546-557): on the first URL/DOI
marker found, keep the (lowercased) part before it; strip whitespace, then
commas, then whitespace again. -/
def normalize_journal_name (raw : String) : String :=
  if raw = "" then ""
  else
    let seps : List String := ["http://", "https://", "doi:", "doi.org", "dx.doi.org"]
    let low : List Char := (lowerStr raw).data
    let s : List Char :=
      match seps.findSome? (fun sep => (splitFirst sep.data low).map Prod.fst) with
      | some pre => pre
      | none => raw.data
    ⟨pyStripWs (stripCharEnds ',' (pyStripWs s))⟩

/-- The `is_utd` flag of `check_utd_journal` (app.py lines 561-573): under
the `if norm:` truthiness guard, a substring match in either direction
against the allow-list. -/
def is_utd_journal_flag (journal : String) : Bool :=
  if lowerStr (normalize_journal_name journal) ≠ "" then
    UTD_24_JOURNALS.any (fun u =>
      strContains (lowerStr (normalize_journal_name journal)) u
        || strContains u (lowerStr (normalize_journal_name journal)))
  else false

/-- `pages_str` (app.py line 577): the page text with every space, dot and
comma removed. -/
def cleanedPages (pages : String) : List Char :=
  pages.data.filter (fun c => !(c == ' ' || c == '.' || c == ','))

/-- The `is_full_article` flag of `check_utd_journal` (app.py lines 575-585):
under the `if pages_field:` truthiness guard, split at the first dash and
compare the two `int(...)` coercions; any failure is caught and yields
false. -/
def is_full_article_flag (pages : String) : Bool :=
  if pages ≠ "" then
    if (cleanedPages pages).contains '-' then
      match splitFirst ['-'] (cleanedPages pages) with
      | some (a, b) =>
        match pyIntOfChars a, pyIntOfChars b with
        | some st, some en => decide (6 ≤ en - st)
        | _, _ => false
      | none => false
    else false
  else false

/-- `check_utd_journal` (app.py lines 560-587): the pair of independent
flags. -/
def check_utd_journal (journal : String) (pages : String) : Bool × Bool :=
  (is_utd_journal_flag journal, is_full_article_flag pages)

/-- The qualifying-venue rule exactly as claim C8 words it: a case-insensitive
substring match between the normalized name and some allow-list entry, in
either direction, with no nonemptiness guard.  Spec side of the comparison. -/
def claim_qualifies (journal : String) : Bool :=
  let norm := lowerStr (normalize_journal_name journal)
  UTD_24_JOURNALS.any (fun u => strContains norm u || strContains u norm)

/-- C8 (counterexample): the venue string "https://doi.org/x" normalizes to
the empty string, which is a substring of every allow-list entry, so the
claim's rule marks it qualifying; the code's `if norm:` guard makes it
non-qualifying. -/
theorem c8_counterexample :
    ¬ (((check_utd_journal "https://doi.org/x" "100-108").1 = true)
        ↔ (claim_qualifies "https://doi.org/x" = true)) := by
  decide

/-- A character occurs in a list iff splitting at its first occurrence
succeeds. -/
theorem contains_iff_splitFirst (l : List Char) (c : Char) :
    l.contains c = true ↔ ∃ p, splitFirst [c] l = some p := by
  induction l with
  | nil =>
    simp [splitFirst]
  | cons a t ih =>
    by_cases hac : c = a
    · subst hac
      simp [splitFirst, List.isPrefixOf]
    · have h1 : ([c].isPrefixOf (a :: t)) = false := by
        simp [List.isPrefixOf]
        exact fun hca => absurd hca hac
      constructor
      · intro hc
        have hct : t.contains c = true := by
          simp [List.contains_cons] at hc
          rcases hc with hca | hct
          · exact absurd hca hac
          · simpa using hct
        obtain ⟨p, hp⟩ := ih.mp hct
        exact ⟨(a :: p.1, p.2), by rw [splitFirst, if_neg (by simp [h1]), hp]; rfl⟩
      · rintro ⟨p, hp⟩
        rw [splitFirst, if_neg (by simp [h1])] at hp
        cases hq : splitFirst [c] t with
        | none => rw [hq] at hp; exact Option.noConfusion hp
        | some q =>
          have hct : t.contains c = true := ih.mpr ⟨q, hq⟩
          have hmem : c ∈ t := by simpa using hct
          simp [List.contains_cons]
          exact Or.inr hmem

/-- C8 (amended): classification returns two independent booleans.  The
qualifying-venue flag is true iff the lowercased normalized venue name is
**nonempty** and matches some allow-list entry as a substring in either
direction (the code's truthiness guard makes a venue whose normalized name is
empty never qualify, although the empty string is a substring of every
entry).  The full-length flag is true iff the page text, cleaned of spaces,
dots and commas, splits at its first dash into two integer-parseable parts
whose difference is at least 6; any parse failure yields false, never an
error.  The claim's scenario holds: venue
"Journal of Finance, https://doi.org/xyz" with pages "100-108" classifies as
(true, true). -/
theorem c8_classify (journal pages : String) :
    ((check_utd_journal journal pages).1 = true ↔
      (lowerStr (normalize_journal_name journal) ≠ "" ∧
        ∃ u ∈ UTD_24_JOURNALS,
          (strContains (lowerStr (normalize_journal_name journal)) u = true ∨
            strContains u (lowerStr (normalize_journal_name journal)) = true)))
    ∧ ((check_utd_journal journal pages).2 = true ↔
        ∃ a b st en, pages ≠ ""
          ∧ splitFirst ['-'] (cleanedPages pages) = some (a, b)
          ∧ pyIntOfChars a = some st ∧ pyIntOfChars b = some en ∧ 6 ≤ en - st)
    ∧ check_utd_journal "Journal of Finance, https://doi.org/xyz" "100-108" = (true, true) := by
  refine ⟨?_, ?_, by decide⟩
  · show (is_utd_journal_flag journal = true) ↔ _
    by_cases hn : lowerStr (normalize_journal_name journal) = ""
    · have hfst : is_utd_journal_flag journal = false := by
        unfold is_utd_journal_flag
        rw [if_neg (not_not_intro hn)]
      rw [hfst]
      refine iff_of_false (by simp) ?_
      rintro ⟨hne, -⟩
      exact hne hn
    · have hfst : is_utd_journal_flag journal =
          UTD_24_JOURNALS.any (fun u =>
            strContains (lowerStr (normalize_journal_name journal)) u
              || strContains u (lowerStr (normalize_journal_name journal))) := by
        unfold is_utd_journal_flag
        rw [if_pos hn]
      rw [hfst, List.any_eq_true]
      constructor
      · rintro ⟨u, hu, hor⟩
        exact ⟨hn, u, hu, by simpa using hor⟩
      · rintro ⟨-, u, hu, hor⟩
        exact ⟨u, hu, by rcases hor with h | h <;> simp [h]⟩
  · show (is_full_article_flag pages = true) ↔ _
    by_cases hp : pages = ""
    · have hsnd : is_full_article_flag pages = false := by
        unfold is_full_article_flag
        rw [if_neg (not_not_intro hp)]
      rw [hsnd]
      refine iff_of_false (by simp) ?_
      rintro ⟨a, b, st, en, hne, -⟩
      exact hne hp
    · cases hsp : splitFirst ['-'] (cleanedPages pages) with
      | none =>
        have hnc : (cleanedPages pages).contains '-' = false := by
          by_contra hcc
          rw [Bool.not_eq_false] at hcc
          obtain ⟨q, hq⟩ := (contains_iff_splitFirst _ '-').mp hcc
          rw [hsp] at hq
          exact Option.noConfusion hq
        have hsnd : is_full_article_flag pages = false := by
          unfold is_full_article_flag
          rw [if_pos hp, hnc]
          simp
        rw [hsnd]
        refine iff_of_false (by simp) ?_
        rintro ⟨a, b, st, en, -, hab, -⟩
        exact Option.noConfusion hab
      | some q =>
        obtain ⟨a0, b0⟩ := q
        have hc : (cleanedPages pages).contains '-' = true :=
          (contains_iff_splitFirst _ '-').mpr ⟨(a0, b0), hsp⟩
        have hred : is_full_article_flag pages =
            (match pyIntOfChars a0, pyIntOfChars b0 with
              | some st, some en => decide (6 ≤ en - st)
              | _, _ => false) := by
          unfold is_full_article_flag
          rw [if_pos hp, hc, hsp]
          simp
        cases hA : pyIntOfChars a0 with
        | none =>
          have hsnd : is_full_article_flag pages = false := by
            rw [hred, hA]
          rw [hsnd]
          refine iff_of_false (by simp) ?_
          rintro ⟨a, b, st, en, -, hab, hA2, -⟩
          injection hab with hab2
          have ha : a = a0 := congrArg Prod.fst hab2.symm
          rw [ha, hA] at hA2
          exact Option.noConfusion hA2
        | some st0 =>
          cases hB : pyIntOfChars b0 with
          | none =>
            have hsnd : is_full_article_flag pages = false := by
              rw [hred, hA, hB]
            rw [hsnd]
            refine iff_of_false (by simp) ?_
            rintro ⟨a, b, st, en, -, hab, -, hB2, -⟩
            injection hab with hab2
            have hb : b = b0 := congrArg Prod.snd hab2.symm
            rw [hb, hB] at hB2
            exact Option.noConfusion hB2
          | some en0 =>
            have hsnd : is_full_article_flag pages = decide (6 ≤ en0 - st0) := by
              rw [hred, hA, hB]
            rw [hsnd]
            constructor
            · intro hdec
              exact ⟨a0, b0, st0, en0, hp, rfl, hA, hB, of_decide_eq_true hdec⟩
            · rintro ⟨a, b, st, en, -, hab, hA2, hB2, hle⟩
              injection hab with hab2
              have ha : a = a0 := congrArg Prod.fst hab2.symm
              have hb : b = b0 := congrArg Prod.snd hab2.symm
              rw [ha, hA] at hA2
              rw [hb, hB] at hB2
              injection hA2 with hst
              injection hB2 with hen
              exact decide_eq_true (by rw [hst, hen]; exact hle)

/-- C8 witness: the amended characterization applied to the claim's scenario
input, extracting the full-length flag of pages "100-108". -/
theorem c8_classify_witness :
    (check_utd_journal "Journal of Finance, https://doi.org/xyz" "100-108").2 = true :=
  (c8_classify "Journal of Finance, https://doi.org/xyz" "100-108").2.1.mpr
    ⟨['1', '0', '0'], ['1', '0', '8'], 100, 108, by decide, by decide, by decide, by decide,
      by decide⟩

/-! ## The job registry and stop_job (JobManager) -/

/-- The fields of a JOBS entry that `stop_job` can observe or affect
(app.py lines 1071-1078 and 1095-1103): the newline-joined log transcript
`status`, the completion flag, the error message and the cancellation flag. -/
structure Job where
  status : String
  done : Bool
  error : Option String
  cancelled : Bool
deriving DecidableEq, Repr

/-- Update the entry at a key of the registry in place. -/
def updateJob (jobs : List (String × Job)) (jid : String) (f : Job → Job) :
    List (String × Job) :=
  match jobs with
  | [] => []
  | (k, j) :: t => if k = jid then (k, f j) :: t else (k, j) :: updateJob t jid f

/-- Registry lookup (`job_id in JOBS`, `JOBS[job_id]`). -/
def lookupJob (jobs : List (String × Job)) (jid : String) : Option Job :=
  (jobs.find? (fun kj => kj.1 == jid)).map Prod.snd

/-- `stop_job` (app.py lines 1233-1238): when the job exists, set its
`cancelled` flag and answer success, else answer failure.  Nothing else of
the job — in particular its log transcript `status` — is touched. -/
def stop_job (jobs : List (String × Job)) (jid : String) :
    List (String × Job) × Bool :=
  match lookupJob jobs jid with
  | some _ => (updateJob jobs jid (fun j => { j with cancelled := true }), true)
  | none => (jobs, false)

/-- C9 (counterexample): stopping an existing job does not lengthen its log
transcript: the stored status string is exactly as long as before, refuting
the claim that `requestCancel` appends an advisory log line (the advisory
"job cancelled" line is appended later by the worker when it observes the
flag, not by `stop_job`). -/
theorem c9_counterexample :
    ¬ (((lookupJob (stop_job [("a", Job.mk "line1" false none false)] "a").1 "a").map
          (fun j => j.status.length)).getD 0 > "line1".length) := by
  decide

/-- Looking up the updated key yields the mapped value. -/
theorem lookupJob_updateJob (jobs : List (String × Job)) (jid : String) (f : Job → Job) :
    lookupJob (updateJob jobs jid f) jid = (lookupJob jobs jid).map f := by
  induction jobs with
  | nil => rfl
  | cons kj t ih =>
    obtain ⟨k, j⟩ := kj
    by_cases hk : k = jid
    · subst hk
      simp [updateJob, lookupJob]
    · rw [updateJob, if_neg hk]
      rw [lookupJob, lookupJob, List.find?_cons, List.find?_cons]
      have hbeq : (((k, j).1 == jid) : Bool) = false := by
        simpa using hk
      rw [hbeq]
      exact ih

/-- Updating twice with an idempotent mutation equals updating once. -/
theorem updateJob_idem (jobs : List (String × Job)) (jid : String) (f : Job → Job)
    (hf : ∀ j, f (f j) = f j) :
    updateJob (updateJob jobs jid f) jid f = updateJob jobs jid f := by
  induction jobs with
  | nil => rfl
  | cons kj t ih =>
    obtain ⟨k, j⟩ := kj
    by_cases hk : k = jid
    · subst hk
      simp [updateJob, hf]
    · rw [updateJob, if_neg hk, updateJob, if_neg hk, ih]

/-- C9 (amended): `stop_job` returns whether the job exists, sets exactly the
`cancelled` flag of an existing job (leaving its transcript and every other
field unchanged), leaves the registry unchanged for an unknown id, and is
idempotent.  It appends no log line; the advisory cancellation line is logged
by the worker when it observes the flag. -/
theorem c9_stop_job (jobs : List (String × Job)) (jid : String) :
    ((stop_job jobs jid).2 = true ↔ lookupJob jobs jid ≠ none)
    ∧ (∀ j, lookupJob jobs jid = some j →
        lookupJob (stop_job jobs jid).1 jid = some { j with cancelled := true })
    ∧ (lookupJob jobs jid = none → (stop_job jobs jid).1 = jobs)
    ∧ stop_job (stop_job jobs jid).1 jid = stop_job jobs jid := by
  refine ⟨?_, ?_, ?_, ?_⟩
  · cases hl : lookupJob jobs jid with
    | none => simp [stop_job, hl]
    | some j => simp [stop_job, hl]
  · intro j hl
    rw [stop_job, hl]
    rw [lookupJob_updateJob, hl]
    rfl
  · intro hl
    rw [stop_job, hl]
  · cases hl : lookupJob jobs jid with
    | none =>
      have h1 : stop_job jobs jid = (jobs, false) := by
        simp only [stop_job, hl]
      rw [h1]
      show stop_job jobs jid = (jobs, false)
      exact h1
    | some j =>
      have h1 : stop_job jobs jid
          = (updateJob jobs jid (fun j => { j with cancelled := true }), true) := by
        simp only [stop_job, hl]
      rw [h1]
      show stop_job (updateJob jobs jid (fun j => { j with cancelled := true })) jid
          = (updateJob jobs jid (fun j => { j with cancelled := true }), true)
      have hl2 : lookupJob (updateJob jobs jid (fun j => { j with cancelled := true })) jid
          = some { j with cancelled := true } := by
        rw [lookupJob_updateJob, hl]
        rfl
      simp only [stop_job, hl2]
      rw [updateJob_idem jobs jid (fun j => { j with cancelled := true }) (fun j => rfl)]

/-- C9 witness: the amended theorem on a one-job registry: stopping job "a"
yields the same job with only the cancelled flag set. -/
theorem c9_stop_job_witness :
    lookupJob (stop_job [("a", Job.mk "log" false none false)] "a").1 "a"
      = some { Job.mk "log" false none false with cancelled := true } :=
  (c9_stop_job [("a", Job.mk "log" false none false)] "a").2.1
    (Job.mk "log" false none false) (by decide)

/-! ## Scholar-id extraction (extract_scholar_id) -/

/-- Python `str.strip()` on a string. -/
def pyStripStr (s : String) : String := ⟨pyStripWs s.data⟩

/-- `urllib.parse.unquote`-style plus handling: `.replace('+', ' ')`. -/
def plusToSpace (l : List Char) : List Char :=
  l.map (fun c => if c = '+' then ' ' else c)

/-- Hexadecimal digit test for percent-decoding. -/
def isHexDigit (c : Char) : Bool :=
  c.isDigit || ('a' ≤ c && c ≤ 'f') || ('A' ≤ c && c ≤ 'F')

/-- Value of a hexadecimal digit. -/
def hexVal (c : Char) : Nat :=
  if c.isDigit then c.toNat - 48
  else if 'a' ≤ c && c ≤ 'f' then c.toNat - 87
  else c.toNat - 55

/-- One post-`%` segment of `urllib.parse.unquote`: decode a leading pair of
hex digits, else keep the `%` literally. -/
def unquoteSeg : List Char → List Char
  | a :: b :: rest =>
    if isHexDigit a && isHexDigit b then
      Char.ofNat (hexVal a * 16 + hexVal b) :: rest
    else '%' :: a :: b :: rest
  | seg => '%' :: seg

/-- Byte-wise model of `urllib.parse.unquote`, the way CPython implements it:
split on `%` and decode the head of each following segment. -/
def pyUnquote (l : List Char) : List Char :=
  match l.splitOn '%' with
  | [] => []
  | first :: segs => first ++ (segs.map unquoteSeg).flatten

/-- A decoded segment is never empty. -/
theorem unquoteSeg_ne_nil (seg : List Char) : unquoteSeg seg ≠ [] := by
  match seg with
  | [] => simp [unquoteSeg]
  | [a] => simp [unquoteSeg]
  | a :: b :: rest =>
    simp only [unquoteSeg]
    split <;> simp

/-- Percent-decoding a nonempty text yields a nonempty text. -/
theorem pyUnquote_ne_nil (l : List Char) (h : l ≠ []) : pyUnquote l ≠ [] := by
  have hinter := List.intercalate_splitOn l '%'
  rw [pyUnquote]
  cases hs : l.splitOn '%' with
  | nil =>
    have hne : l.splitOn '%' ≠ [] := by
      rw [List.splitOn]
      exact List.splitOnP_ne_nil _ l
    exact absurd hs hne
  | cons first segs =>
    cases segs with
    | nil =>
      rw [hs] at hinter
      have hfl : first = l := by
        simpa [List.intercalate] using hinter
      simpa [hfl] using h
    | cons seg rest =>
      intro hemp
      have hemp2 : first ++ (List.map unquoteSeg (seg :: rest)).flatten = [] := hemp
      rw [List.map_cons, List.flatten_cons] at hemp2
      rcases List.append_eq_nil.mp hemp2 with ⟨h1, h2⟩
      rcases List.append_eq_nil.mp h2 with ⟨h3, h4⟩
      exact unquoteSeg_ne_nil seg h3

/-- The query component of `urllib.parse.urlparse`: drop everything from the
first `#`, then keep what follows the first `?` (empty when there is no
`?`). -/
def queryOf (u : String) : String :=
  let noFrag :=
    match splitFirst ['#'] u.data with
    | some p => p.1
    | none => u.data
  match splitFirst ['?'] noFrag with
  | some p => ⟨p.2⟩
  | none => ""

/-- `urllib.parse.parse_qsl` with default arguments: split the query on `&`,
skip fields with no `=` and fields with an empty raw value, decode name and
value (`+` to space, then percent-decoding). -/
def parse_qsl (qs : String) : List (String × String) :=
  (qs.data.splitOn '&').filterMap
    (fun f =>
      match splitFirst ['='] f with
      | none => none
      | some (n, v) =>
        if v = [] then none
        else some (⟨pyUnquote (plusToSpace n)⟩, ⟨pyUnquote (plusToSpace v)⟩))

/-- Python dict-of-lists accumulation step of `parse_qs`. -/
def dictAppendStr (d : List (String × List String)) (k : String) (v : String) :
    List (String × List String) :=
  match d with
  | [] => [(k, [v])]
  | (k0, vs) :: t => if k0 = k then (k0, vs ++ [v]) :: t else (k0, vs) :: dictAppendStr t k v

/-- `urllib.parse.parse_qs`: group the `parse_qsl` pairs into a dict of value
lists, preserving first-occurrence key order and value order. -/
def parse_qs (qs : String) : List (String × List String) :=
  (parse_qsl qs).foldl (fun acc kv => dictAppendStr acc kv.1 kv.2) []

/-- Lookup in the parsed-query dict (`'user' in query_params`). -/
def qsGet (d : List (String × List String)) (k : String) : Option (List String) :=
  (d.find? (fun kv => kv.1 == k)).map Prod.snd

/-- Python `startswith("http")` (a list-level prefix test). -/
def startsHttp (s : String) : Bool := "http".data.isPrefixOf s.data

/-- `extract_scholar_id` (app.py lines 536-543): strip the input; when it
starts with "http", parse the URL query and return the first `user` value if
the parameter is present (with a nonempty value list); in every other case
return the stripped input itself. -/
def extract_scholar_id (raw : String) : String :=
  if startsHttp (pyStripStr raw) then
    match qsGet (parse_qs (queryOf (pyStripStr raw))) "user" with
    | some (v :: _) => v
    | some [] => pyStripStr raw
    | none => pyStripStr raw
  else pyStripStr raw

/-- All values of a key, in query order. -/
def valuesOf (l : List (String × String)) (k : String) : List String :=
  (l.filter (fun kv => kv.1 == k)).map Prod.snd

/-- Looking up a key after one dict-of-lists append. -/
theorem qsGet_dictAppendStr (d : List (String × List String)) (k0 : String) (v : String)
    (k : String) :
    qsGet (dictAppendStr d k0 v) k =
      if k0 = k then
        match qsGet d k with
        | some vs => some (vs ++ [v])
        | none => some [v]
      else qsGet d k := by
  induction d with
  | nil =>
    by_cases hk : k0 = k
    · subst hk
      simp [dictAppendStr, qsGet]
    · simp [dictAppendStr, qsGet, hk]
  | cons e t ih =>
    obtain ⟨k1, vs1⟩ := e
    by_cases h10 : k1 = k0
    · subst h10
      by_cases h1k : k1 = k
      · subst h1k
        simp [dictAppendStr, qsGet, List.find?_cons]
      · simp [dictAppendStr, qsGet, List.find?_cons, h1k]
    · by_cases h1k : k1 = k
      · subst h1k
        have hk : ¬ k0 = k1 := fun hh => h10 hh.symm
        simp [dictAppendStr, qsGet, List.find?_cons, h10, hk]
      · have hb : ((k1 == k) : Bool) = false := by simpa using h1k
        simp only [dictAppendStr, if_neg h10, qsGet, List.find?_cons, hb, cond_false]
        exact ih

/-- Looking up a key in the accumulated dict of lists: the values are exactly
`valuesOf` the remaining pairs appended to what the accumulator already
holds. -/
theorem qsGet_fold (l : List (String × String)) (acc : List (String × List String))
    (k : String) :
    qsGet (l.foldl (fun acc kv => dictAppendStr acc kv.1 kv.2) acc) k =
      match qsGet acc k with
      | some vs => some (vs ++ valuesOf l k)
      | none => if valuesOf l k = [] then none else some (valuesOf l k) := by
  induction l generalizing acc with
  | nil =>
    cases h : qsGet acc k with
    | none => simp [valuesOf, h]
    | some vs => simp [valuesOf, h]
  | cons a t ih =>
    rw [List.foldl_cons]
    rw [ih (dictAppendStr acc a.1 a.2)]
    rw [qsGet_dictAppendStr]
    by_cases hak : a.1 = k
    · rw [if_pos hak]
      have hv : valuesOf (a :: t) k = a.2 :: valuesOf t k := by
        simp [valuesOf, List.filter_cons, hak]
      rw [hv]
      cases h : qsGet acc k with
      | none => simp
      | some vs => simp
    · rw [if_neg hak]
      have hv : valuesOf (a :: t) k = valuesOf t k := by
        have hb : ((a.1 == k) : Bool) = false := by simpa using hak
        simp [valuesOf, List.filter_cons, hb]
      rw [hv]

/-- `find?` returns the head of the filtered list. -/
theorem find?_eq_head_filter {α : Type} (p : α → Bool) (l : List α) :
    l.find? p = (l.filter p).head? := by
  induction l with
  | nil => rfl
  | cons a t ih =>
    rw [List.find?_cons, List.filter_cons]
    cases hp : p a with
    | true => simp
    | false =>
      simp only [cond_false, Bool.false_eq_true, if_false]
      exact ih

/-- C10: scholar-identifier extraction.  When the stripped input starts with
"http" and its URL query holds a `user` field with a nonempty value, the
result is the value of the **first** such field; otherwise — including
"http"-prefixed inputs without a usable `user` parameter — the result is the
stripped input itself.  Every value `parse_qsl` produces is nonempty, so the
present `user` parameter is necessarily a non-empty one. -/
theorem c10_extract_scholar_id (raw : String) :
    (extract_scholar_id raw =
      if startsHttp (pyStripStr raw) then
        match (parse_qsl (queryOf (pyStripStr raw))).find? (fun kv => kv.1 == "user") with
        | some kv => kv.2
        | none => pyStripStr raw
      else pyStripStr raw)
    ∧ ∀ kv ∈ parse_qsl (queryOf (pyStripStr raw)), kv.2 ≠ "" := by
  constructor
  · by_cases hs : startsHttp (pyStripStr raw)
    · rw [extract_scholar_id, if_pos hs, if_pos hs]
      have hq := qsGet_fold (parse_qsl (queryOf (pyStripStr raw))) [] "user"
      have hacc : qsGet ([] : List (String × List String)) "user" = none := rfl
      rw [hacc] at hq
      rw [show parse_qs (queryOf (pyStripStr raw)) =
        (parse_qsl (queryOf (pyStripStr raw))).foldl
          (fun acc kv => dictAppendStr acc kv.1 kv.2) [] from rfl]
      rw [hq]
      rw [find?_eq_head_filter]
      cases hf : (parse_qsl (queryOf (pyStripStr raw))).filter (fun kv => kv.1 == "user") with
      | nil =>
        have hv : valuesOf (parse_qsl (queryOf (pyStripStr raw))) "user" = [] := by
          rw [valuesOf, hf]
          rfl
        rw [hv]
        simp
      | cons kv0 rest =>
        have hv : valuesOf (parse_qsl (queryOf (pyStripStr raw))) "user"
            = kv0.2 :: rest.map Prod.snd := by
          rw [valuesOf, hf]
          rfl
        rw [hv]
        simp
    · rw [extract_scholar_id, if_neg hs, if_neg hs]
  · intro kv hkv
    rw [parse_qsl] at hkv
    obtain ⟨f, hf, hsome⟩ := List.mem_filterMap.mp hkv
    cases hsp : splitFirst ['='] f with
    | none => rw [hsp] at hsome; exact Option.noConfusion hsome
    | some nv =>
      obtain ⟨n, v⟩ := nv
      rw [hsp] at hsome
      have hsome2 : (if v = [] then (none : Option (String × String))
          else some ((⟨pyUnquote (plusToSpace n)⟩ : String),
            (⟨pyUnquote (plusToSpace v)⟩ : String))) = some kv := hsome
      by_cases hv : v = []
      · rw [if_pos hv] at hsome2
        exact Option.noConfusion hsome2
      · rw [if_neg hv] at hsome2
        injection hsome2 with hkv2
        have h2 : kv.2 = (⟨pyUnquote (plusToSpace v)⟩ : String) := by
          rw [← hkv2]
        rw [h2]
        intro hemp
        have : pyUnquote (plusToSpace v) = [] := congrArg String.data hemp
        have hpl : plusToSpace v ≠ [] := by
          intro hx
          exact hv (List.map_eq_nil_iff.mp hx)
        exact pyUnquote_ne_nil (plusToSpace v) hpl this

/-- C10 witness: a full profile URL yields the value of its `user`
parameter. -/
theorem c10_extract_witness :
    extract_scholar_id "https://scholar.google.com/citations?user=EJBNDEcAAAAJ&hl=en"
      = "EJBNDEcAAAAJ" := by
  have h := (c10_extract_scholar_id
    "https://scholar.google.com/citations?user=EJBNDEcAAAAJ&hl=en").1
  exact h.trans (by decide)

/-! ## The cancellable worker loops (JobManager) -/

/-- The per-publication loop of `process_author_publications` (app.py lines
607-616), abstracted over the item type, the detail-fetch oracle and the
cancellation flag.  `fetch p n` is the outcome of attempt `n` of
`scholarly.fill(pub)` for item `p`; `cancel k` is the flag value read at the
k-th loop-top checkpoint (line 608).  Each reached item gets exactly the
single attempt 0 (line 614); a failure sleeps and skips the item via
`continue` (lines 615-616).  Returns the successfully fetched items, whether
cancellation was observed, and the log of (item, attempt) pairs. -/
def process_author_pubs {α β : Type} (fetch : α → Nat → Option β) (cancel : Nat → Bool) :
    List α → Nat → List β × Bool × List (α × Nat)
  | [], _ => ([], false, [])
  | p :: rest, k =>
    if cancel k then ([], true, [])
    else
      match fetch p 0 with
      | none =>
        let r := process_author_pubs fetch cancel rest (k + 1)
        (r.1, r.2.1, (p, 0) :: r.2.2)
      | some b =>
        let r := process_author_pubs fetch cancel rest (k + 1)
        (b :: r.1, r.2.1, (p, 0) :: r.2.2)

/-- The per-item processing exactly as claim C3 words it: attempt 0, on
failure one retried attempt 1 after a backoff, then skip.  Spec side of the
comparison. -/
def claim_process_retry {α β : Type} (fetch : α → Nat → Option β) :
    List α → List β × List (α × Nat)
  | [] => ([], [])
  | p :: rest =>
    let r := claim_process_retry fetch rest
    match fetch p 0 with
    | some b => (b :: r.1, (p, 0) :: r.2)
    | none =>
      match fetch p 1 with
      | some b => (b :: r.1, (p, 0) :: (p, 1) :: r.2)
      | none => (r.1, (p, 0) :: (p, 1) :: r.2)

/-- C3 (counterexample): an item whose fetch fails on attempt 0 and would
succeed on attempt 1.  The code makes no second attempt - its attempt log for
the item is exactly `[(p, 0)]` - and drops the item, while the claim's
retry-once rule would recover it. -/
theorem c3_counterexample :
    (process_author_pubs (fun (_ : String) (a : Nat) => if a = 1 then some "ok" else none)
        (fun _ => false) ["p"] 0).1 = []
    ∧ ¬ (("p", 1) ∈ (process_author_pubs
        (fun (_ : String) (a : Nat) => if a = 1 then some "ok" else none)
        (fun _ => false) ["p"] 0).2.2)
    ∧ (claim_process_retry (fun (_ : String) (a : Nat) => if a = 1 then some "ok" else none)
        ["p"]).1 = ["ok"] := by
  decide

/-- C3 (amended): with no cancellation requested, every item gets exactly one
fetch attempt (attempt 0, never a retry); an item whose single attempt fails
is skipped - after the short backoff sleep, with no logged warning - and the
loop continues with the remaining items, so a per-item failure is never fatal:
the result is exactly the successful fetches in order. -/
theorem c3_no_retry {α β : Type} (fetch : α → Nat → Option β) (cancel : Nat → Bool)
    (pubs : List α) (k : Nat) (hc : ∀ n, cancel n = false) :
    (process_author_pubs fetch cancel pubs k).2.2 = pubs.map (fun p => (p, 0))
    ∧ (process_author_pubs fetch cancel pubs k).1 = pubs.filterMap (fun p => fetch p 0)
    ∧ (process_author_pubs fetch cancel pubs k).2.1 = false := by
  induction pubs generalizing k with
  | nil => exact ⟨rfl, rfl, rfl⟩
  | cons p rest ih =>
    obtain ⟨ih1, ih2, ih3⟩ := ih (k + 1)
    rw [process_author_pubs]
    rw [hc k]
    cases hf : fetch p 0 with
    | none =>
      simp only [if_false, Bool.false_eq_true]
      refine ⟨?_, ?_, ?_⟩
      · simp [ih1]
      · simp [List.filterMap_cons, hf, ih2]
      · simp [ih3]
    | some b =>
      simp only [if_false, Bool.false_eq_true]
      refine ⟨?_, ?_, ?_⟩
      · simp [ih1]
      · simp [List.filterMap_cons, hf, ih2]
      · simp [ih3]

/-- C3 witness: the amended theorem at a two-item batch whose first item
always fails: the failing item is skipped, the second one is processed. -/
theorem c3_no_retry_witness :
    (process_author_pubs (fun (p : String) (_ : Nat) => if p = "bad" then none else some p)
        (fun _ => false) ["bad", "good"] 0).1 = ["good"] := by
  have h := (c3_no_retry (fun (p : String) (_ : Nat) => if p = "bad" then none else some p)
    (fun _ => false) ["bad", "good"] 0 (fun n => rfl)).2.1
  exact h.trans (by decide)

/-- One line of a multi-author job transcript (the constructors carry the
variable parts of the corresponding `log(...)` calls in
`scrape_multiple_authors`, app.py lines 873-992 and 1048). -/
inductive LogEntry where
  | startNote (total : Nat) : LogEntry
  | processing (idx total : Nat) (id : String) : LogEntry
  | cancelNote : LogEntry
  | cancelDuringNote : LogEntry
  | emptyNote : LogEntry
  | doneNote : LogEntry
deriving DecidableEq, Repr

/-- Outcome of a multi-author job: transcript, per-author summaries
(abstracted to the author ids), and the `cancelled`/`done`/`error` fields of
the JOBS entry. -/
structure MultiResult where
  logs : List LogEntry
  summaries : List String
  cancelled : Bool
  done : Bool
  error : Option String
deriving DecidableEq, Repr

/-- The author loop of `scrape_multiple_authors` (app.py lines 877-988) at
author granularity, with the author-resolution and per-publication details
abstracted away (per-item failures are the subject of `process_author_pubs`).
`ct` is the number of flag reads that still return false before the
cooperative cancellation flag is seen as set (the flag is monotone); each
iteration reads it twice: at the loop-top checkpoint (line 878, logging the
cancel notice and stopping) and right after the publications are retrieved
(line 906, stopping without appending this author's summary). -/
def runMultiLoop : List String → Nat → Nat → Nat → List LogEntry × List String × Bool
  | [], _, _, _ => ([], [], false)
  | id :: rest, idx, total, ct =>
    if ct = 0 then ([.cancelNote], [], true)
    else if ct = 1 then ([.processing idx total id, .cancelDuringNote], [], true)
    else
      let r := runMultiLoop rest (idx + 1) total (ct - 2)
      (.processing idx total id :: r.1, id :: r.2.1, r.2.2)

/-- `scrape_multiple_authors` (app.py lines 865-1052) around the loop: the
start log line (line 873), the loop, then either the empty-result failure
path (lines 990-993, setting the error and leaving `done` unset) or the
export path (lines 1040-1048, setting `done` and appending the final status
line). -/
def runMulti (ids : List String) (ct : Nat) : MultiResult :=
  let r := runMultiLoop ids 1 ids.length ct
  if r.2.1 = [] then
    ⟨.startNote ids.length :: r.1 ++ [.emptyNote], r.2.1, r.2.2, false,
      some "No authors processed successfully."⟩
  else
    ⟨.startNote ids.length :: r.1 ++ [.doneNote], r.2.1, r.2.2, true, none⟩

/-- The author ids of the processing lines of a transcript, in order. -/
def processingIds (l : List LogEntry) : List String :=
  l.filterMap (fun e =>
    match e with
    | .processing _ _ id => some id
    | _ => none)

/-- C2 (counterexample): a two-author job whose cancellation flag is seen
after the first author: the loop stops (only author "a" is processed), but
the job is still marked `done` with no error - the status page offers the
export download and reports completion - rather than reaching an exclusive
Cancelled terminal state as the claim demands. -/
theorem c2_counterexample :
    (runMulti ["a", "b"] 2).cancelled = true
    ∧ (runMulti ["a", "b"] 2).done = true
    ∧ (runMulti ["a", "b"] 2).error = none := by
  decide

/-- Behaviour of the author loop while cancellation arrives before its end:
it reports cancellation, its transcript holds exactly the authors begun
strictly before the observed checkpoint, and the summaries hold exactly the
authors fully processed before it. -/
theorem runMultiLoop_cancel (ids : List String) (idx total ct : Nat)
    (h : ct < 2 * ids.length) :
    (runMultiLoop ids idx total ct).2.2 = true
    ∧ processingIds (runMultiLoop ids idx total ct).1 = ids.take ((ct + 1) / 2)
    ∧ (runMultiLoop ids idx total ct).2.1 = ids.take (ct / 2) := by
  induction ids generalizing idx ct with
  | nil => simp at h
  | cons id rest ih =>
    by_cases h0 : ct = 0
    · subst h0
      exact ⟨rfl, rfl, rfl⟩
    · by_cases h1 : ct = 1
      · subst h1
        exact ⟨rfl, rfl, rfl⟩
      · obtain ⟨m, rfl⟩ : ∃ m, ct = m + 2 := ⟨ct - 2, by omega⟩
        have hm : m < 2 * rest.length := by
          simp only [List.length_cons] at h
          omega
        obtain ⟨ih1, ih2, ih3⟩ := ih (idx + 1) m hm
        have hstep : runMultiLoop (id :: rest) idx total (m + 2)
            = (.processing idx total id :: (runMultiLoop rest (idx + 1) total m).1,
               id :: (runMultiLoop rest (idx + 1) total m).2.1,
               (runMultiLoop rest (idx + 1) total m).2.2) := by
          rw [runMultiLoop]
          rw [if_neg (by omega), if_neg (by omega)]
          rfl
        rw [hstep]
        refine ⟨ih1, ?_, ?_⟩
        · have hdiv : (m + 2 + 1) / 2 = (m + 1) / 2 + 1 := by omega
          rw [hdiv, List.take_succ_cons]
          simp only [processingIds, List.filterMap_cons]
          rw [processingIds] at ih2
          simp only [ih2]
        · have hdiv : (m + 2) / 2 = m / 2 + 1 := by omega
          rw [hdiv, List.take_succ_cons]
          simp only [ih3]

/-- C2 (amended): requesting cancellation while authors remain halts the
batch at the next checkpoint: the cancelled flag is observed and recorded,
the transcript holds the processing lines of exactly the authors begun
strictly before the observed checkpoint (none after, plus a cancellation
notice), and the stored summaries are exactly the authors fully processed
before it.  But the job does not reach an exclusive Cancelled terminal
state: whenever at least one author was completed (two flag reads passed,
`ct >= 2`) the export is still built and the job is marked done with no
error — i.e. Completed with the cancelled flag also set — and when no author
was completed it is marked failed with an error message instead. -/
theorem c2_cancellation (ids : List String) (ct : Nat) (h : ct < 2 * ids.length) :
    (runMulti ids ct).cancelled = true
    ∧ processingIds (runMulti ids ct).logs = ids.take ((ct + 1) / 2)
    ∧ (runMulti ids ct).summaries = ids.take (ct / 2)
    ∧ ((runMulti ids ct).done = true ↔ 2 ≤ ct)
    ∧ ((runMulti ids ct).error = none ↔ 2 ≤ ct) := by
  obtain ⟨h1, h2, h3⟩ := runMultiLoop_cancel ids 1 ids.length ct h
  have hlen : 1 ≤ ids.length := by
    rcases ids with _ | ⟨a, t⟩
    · simp at h
    · simp
  by_cases hs : (runMultiLoop ids 1 ids.length ct).2.1 = []
  · have hct2 : ct < 2 := by
      rw [h3] at hs
      have hctdiv : ct / 2 = 0 := by
        rcases List.take_eq_nil_iff.mp hs with h' | h'
        all_goals
          first
          | omega
          | (exfalso; rw [h'] at hlen; simp at hlen)
      omega
    have hval : runMulti ids ct
        = ⟨.startNote ids.length :: (runMultiLoop ids 1 ids.length ct).1 ++ [.emptyNote],
           (runMultiLoop ids 1 ids.length ct).2.1,
           (runMultiLoop ids 1 ids.length ct).2.2, false,
           some "No authors processed successfully."⟩ := by
      simp only [runMulti]
      rw [if_pos hs]
    rw [hval]
    refine ⟨h1, ?_, h3, ?_, ?_⟩
    · simp only [processingIds, List.filterMap_cons, List.filterMap_append,
        List.filterMap_cons, List.filterMap_nil]
      rw [processingIds] at h2
      simp [h2]
    · exact iff_of_false (by simp) (by omega)
    · exact iff_of_false (by simp) (by omega)
  · have hct2 : 2 ≤ ct := by
      by_contra hlt
      push_neg at hlt
      have hdz : ct / 2 = 0 := by omega
      rw [h3, hdz] at hs
      simp at hs
    have hval : runMulti ids ct
        = ⟨.startNote ids.length :: (runMultiLoop ids 1 ids.length ct).1 ++ [.doneNote],
           (runMultiLoop ids 1 ids.length ct).2.1,
           (runMultiLoop ids 1 ids.length ct).2.2, true, none⟩ := by
      simp only [runMulti]
      rw [if_neg hs]
    rw [hval]
    refine ⟨h1, ?_, h3, ?_, ?_⟩
    · simp only [processingIds, List.filterMap_cons, List.filterMap_append,
        List.filterMap_cons, List.filterMap_nil]
      rw [processingIds] at h2
      simp [h2]
    · exact iff_of_true rfl hct2
    · exact iff_of_true rfl hct2

/-- C2 witness: three authors with the flag first seen at the third read:
authors "a" and "b" appear in the transcript, "c" never does. -/
theorem c2_cancellation_witness :
    processingIds (runMulti ["a", "b", "c"] 3).logs = ["a", "b"] := by
  have h := (c2_cancellation ["a", "b", "c"] 3 (by decide)).2.1
  exact h.trans (by decide)

end ScholarApp
